import Mathlib

/-!
Shallow embedding of `point_vs/analysis/pose_selection.py` (pose-selection
statistics).  Numeric values (scores, energies, RMSDs) are modelled as `ℚ`;
Python string operations are modelled by structural functions on `List Char`.
The `Ranking` class (`point_vs/analysis/ranking.py`) is not part of the
sources, so its `get_top_n` method is modelled from the specification.
-/

namespace PoseSelection

/-! ### String helpers (models of Python `str.split`, `strip`, `startswith`,
`pathlib.Path.name`, `int(...)` and `float(...)`) -/

/-- Model of Python `s.split(sep)` for a single-character separator:
splitting the empty string yields `[""]`, adjacent separators yield empty
fields. -/
def splitOnChar (sep : Char) : List Char → List (List Char)
  | [] => [[]]
  | c :: cs =>
    let rest := splitOnChar sep cs
    if c = sep then [] :: rest
    else (c :: rest.headD []) :: rest.tail

/-- Model of Python `str.startswith`. -/
def strStartsWith (pre s : String) : Bool :=
  pre.data.isPrefixOf s.data

/-- Whitespace characters recognised by Python `str.strip()`. -/
def isWS (c : Char) : Bool :=
  c = ' ' || c = '\t' || c = '\n' || c = '\r'

/-- Model of Python `str.strip()`. -/
def stripStr (s : String) : String :=
  ⟨((s.data.dropWhile isWS).reverse.dropWhile isWS).reverse⟩

/-- Model of Python `pathlib.Path(s).name`: the component after the last
`'/'`. -/
def pathName (s : String) : String :=
  ⟨(splitOnChar '/' s.data).getLastD []⟩

/-- Model of `Path(s).name.split('.')[0]`: the file name up to its first
`'.'` (used for both pdbids and ligand names in the source). -/
def stem (s : String) : String :=
  ⟨(splitOnChar '.' (pathName s).data).headD []⟩

/-- Model of `s.split('_')[-1]`. -/
def lastUnderscoreToken (s : String) : String :=
  ⟨(splitOnChar '_' s.data).getLastD []⟩

/-- Model of Python `int(s)` on non-negative decimal input: `none` models a
`ValueError`. -/
def parseNat? (cs : List Char) : Option ℕ :=
  if cs.isEmpty then none
  else cs.foldlM (fun acc c => if c.isDigit then some (acc * 10 + (c.toNat - 48)) else none) 0

/-- Model of Python `float(s)` on plain decimal input (sign, integer part,
optional fractional part); exponent and `inf`/`nan` forms are outside the
inputs the program handles.  `none` models a `ValueError`. -/
def parseRat? (s : String) : Option ℚ :=
  let (sgn, body) : ℚ × List Char :=
    match s.data with
    | '-' :: rest => (-1, rest)
    | '+' :: rest => (1, rest)
    | cs => (1, cs)
  match splitOnChar '.' body with
  | [ip] => (parseNat? ip).map (fun n => sgn * n)
  | [ip, fp] =>
    if ip.isEmpty && fp.isEmpty then none
    else do
      let i ← if ip.isEmpty then some 0 else parseNat? ip
      let f ← if fp.isEmpty then some 0 else parseNat? fp
      some (sgn * ((i : ℚ) + (f : ℚ) / (10 : ℚ) ^ fp.length))
  | _ => none

/-! ### Data model -/

/-- One pose record: `(y_true, y_pred, rmsd)`, the row layout of the
`np.array`s handed to `Ranking`. -/
abbrev Triple := ℚ × ℚ × ℚ

/-- `rmsd_info[pdbid]['docked_wrt_crystal']`: pose index to RMSD. -/
abbrev RmsdRecord := List (ℕ × ℚ)

/-- The RMSD table loaded from the YAML file: pdbid to its
`docked_wrt_crystal` record. -/
abbrev RmsdTable := List (String × RmsdRecord)

/-- A parsed row of the whitespace-delimited results file.  The file has a
fifth, literal-`'|'` separator column (named `'|'` in `pd.read_csv`) whose
content is never used, so it is not stored. -/
structure Row where
  y_true : ℚ
  y_pred : ℚ
  recp : String
  lig : String
deriving DecidableEq, Repr

/-- The result object: `Ranking(fname, sorted_scores_and_rmsds_lst)` keeps
the per-receptor score-sorted pose lists. -/
structure Ranking where
  lists : List (List Triple)
deriving DecidableEq, Repr

/-- The three filesystem states the results path can be in:
`Path.is_file()`, `Path.is_dir()` (with the `**/docked_poses.sdf` files as
`(parent directory name, file lines)` pairs), or neither. -/
inductive PathInput where
  | file (lines : List String)
  | dir (sdfs : List (String × List String))
  | missing (path : String)

/-! ### `extract_energies` -/

/-- The SDF property tag recognised by `extract_energies`. -/
def isTag (line : String) : Bool :=
  strStartsWith "> <minimizedAffinity>" line

/-- Loop of `extract_energies`: `record_next` state threaded over the file
lines; the dict keyed `0, 1, ...` by `len(energies)` is a list.  A line that
fails `float(...)` is a `ValueError`. -/
def extractAux : Bool → List String → Except String (List ℚ)
  | _, [] => .ok []
  | recordNext, line :: rest =>
    if isTag line then extractAux true rest
    else if recordNext then
      match parseRat? (stripStr line) with
      | some v =>
        match extractAux false rest with
        | .error e => .error e
        | .ok vs => .ok (v :: vs)
      | none => .error ("ValueError: " ++ line)
    else extractAux false rest

/-- `extract_energies(sdf)`: `{index: minimizedAffinity}` for each docked
item, as a list indexed `0..k-1`. -/
def extractEnergies (lines : List String) : Except String (List ℚ) :=
  extractAux false lines

/-! ### Text-file branch -/

/-- Model of one `pd.read_csv(..., sep=' ', names=['y_true','|','y_pred',
'rec','lig'])` row: five space-separated fields; `y_true` and `y_pred` are
numeric, the second field is the unused `'|'` column. -/
def parseLine (line : String) : Except String Row :=
  match (splitOnChar ' ' line.data).map (fun cs => (⟨cs⟩ : String)) with
  | [a, _, c, d, e] =>
    match parseRat? a, parseRat? c with
    | some yt, some yp => .ok ⟨yt, yp, d, e⟩
    | _, _ => .error ("could not parse numeric columns: " ++ line)
  | _ => .error ("wrong number of columns: " ++ line)

/-- All rows of the results file. -/
def parseLines : List String → Except String (List Row)
  | [] => .ok []
  | l :: ls =>
    match parseLine l with
    | .error e => .error e
    | .ok row =>
      match parseLines ls with
      | .error e => .error e
      | .ok rows => .ok (row :: rows)

/-- Per-receptor grouping, `defaultdict(list)` with insertion order:
append `v` to the group of `key`, creating it at the end if absent. -/
def addToGroup (groups : List (String × List Triple)) (key : String) (v : Triple) :
    List (String × List Triple) :=
  match groups with
  | [] => [(key, [v])]
  | (k, vs) :: rest =>
    if k = key then (k, vs ++ [v]) :: rest else (k, vs) :: addToGroup rest key v

/-- One iteration of the text-branch loop.  Note the order of operations in
the source: `rmsd_info[pdbid]` is read (a `KeyError` if the pdbid is absent)
*before* the `minimised` skip, then the pose index parsed from the ligand
name indexes `['docked_wrt_crystal']` (another potential `KeyError`). -/
def processRow (table : RmsdTable) (groups : List (String × List Triple)) (row : Row) :
    Except String (List (String × List Triple)) :=
  match table.lookup (stem row.recp) with
  | none => .error ("KeyError: " ++ stem row.recp)
  | some record =>
    if strStartsWith "minimised" (stem row.lig) then .ok groups
    else
      match parseNat? (lastUnderscoreToken (stem row.lig)).data with
      | none => .error ("ValueError: " ++ stem row.lig)
      | some idx =>
        match record.lookup idx with
        | none => .error ("KeyError: " ++ toString idx)
        | some rmsd => .ok (addToGroup groups row.recp (row.y_true, row.y_pred, rmsd))

/-- The text-branch loop, threading the `defaultdict` through the rows. -/
def textGroupsAux (table : RmsdTable) (groups : List (String × List Triple)) :
    List Row → Except String (List (String × List Triple))
  | [] => .ok groups
  | row :: rest =>
    match processRow table groups row with
    | .error e => .error e
    | .ok groups2 => textGroupsAux table groups2 rest

/-- The `pdbid_to_scores_and_rmsds` table built by the text-branch loop. -/
def textBranchGroups (table : RmsdTable) (rows : List Row) :
    Except String (List (String × List Triple)) :=
  textGroupsAux table [] rows

/-- `sorted(lst, key=lambda x: x[1], reverse=True)`: stable sort, best
(highest) predicted score first. -/
def sortGroupDesc (lst : List Triple) : List Triple :=
  lst.insertionSort (fun a b => b.2.1 ≤ a.2.1)

/-! ### SDF-directory branch -/

/-- `[(0, docked_energies[key], rmsds[key]) for key in docked_energies]`:
`rmsds[key]` is an uncaught `KeyError` when the pose index is missing. -/
def buildCombinedAux (rmsds : RmsdRecord) : ℕ → List ℚ → Except String (List Triple)
  | _, [] => .ok []
  | i, e :: es =>
    match rmsds.lookup i with
    | none => .error ("KeyError: " ++ toString i)
    | some r =>
      match buildCombinedAux rmsds (i + 1) es with
      | .error e2 => .error e2
      | .ok rest => .ok (((0 : ℚ), e, r) :: rest)

/-- `combined[:, 0] = combined[:, 2] < 2`: the ground-truth column is
overwritten with the fixed RMSD-below-2 indicator. -/
def relabel (t : Triple) : Triple :=
  ((if t.2.2 < 2 then (1 : ℚ) else 0), t.2.1, t.2.2)

/-- One iteration of the SDF-branch loop over the globbed
`docked_poses.sdf` files: a pdbid absent from the RMSD table is skipped
(`except KeyError: continue`); poses are sorted by energy ascending; on an
empty pose list the `combined[:, 0]` assignment is a numpy `IndexError`. -/
def processSdf (table : RmsdTable) (acc : List (List Triple)) (sdf : String × List String) :
    Except String (List (List Triple)) :=
  match table.lookup sdf.1 with
  | none => .ok acc
  | some rmsds =>
    match extractEnergies sdf.2 with
    | .error e => .error e
    | .ok energies =>
      match buildCombinedAux rmsds 0 energies with
      | .error e => .error e
      | .ok combined =>
        let sortedCombined := combined.insertionSort (fun a b => a.2.1 ≤ b.2.1)
        if sortedCombined.isEmpty then .error "IndexError"
        else .ok (acc ++ [sortedCombined.map relabel])

/-- The SDF-branch loop over the globbed files. -/
def sdfFoldAux (table : RmsdTable) (acc : List (List Triple)) :
    List (String × List String) → Except String (List (List Triple))
  | [] => .ok acc
  | sdf :: rest =>
    match processSdf table acc sdf with
    | .error e => .error e
    | .ok acc2 => sdfFoldAux table acc2 rest

/-! ### `parse_results` and the command-line entry point -/

/-- `parse_results`: text-file branch, SDF-directory branch, or
`FileNotFoundError`. -/
def parse_results (input : PathInput) (table : RmsdTable) : Except String Ranking :=
  match input with
  | .file lines =>
    match parseLines lines with
    | .error e => .error e
    | .ok rows =>
      match textBranchGroups table rows with
      | .error e => .error e
      | .ok groups => .ok ⟨groups.map (fun g => sortGroupDesc g.2)⟩
  | .dir sdfs =>
    match sdfFoldAux table [] sdfs with
    | .error e => .error e
    | .ok lists => .ok ⟨lists⟩
  | .missing p => .error ("FileNotFoundError: " ++ p ++ " does not exist.")

/-- Modelled from the spec: `Ranking.get_top_n` (class `Ranking` in
`point_vs/analysis/ranking.py` is not among the sources).  Per the spec,
"top-N success" for a receptor is whether any of the top N poses has RMSD
below the threshold, and the accuracy is the fraction of receptors with
top-N success. -/
def Ranking.get_top_n (r : Ranking) (n : ℕ) (threshold : ℚ) : ℚ :=
  ((r.lists.countP (fun lst => (lst.take n).any (fun t => t.2.2 < threshold)) : ℕ) : ℚ) /
    (r.lists.length : ℚ)

/-- The `__main__` block: the printed lines, as `(N, top-N accuracy)` pairs
for `i in range(1, 11)`. -/
def mainOutput (input : PathInput) (table : RmsdTable) (threshold : ℚ) :
    Except String (List (ℕ × ℚ)) :=
  match parse_results input table with
  | .error e => .error e
  | .ok r => .ok ((List.range' 1 10).map (fun i => (i, r.get_top_n i threshold)))

/-! ### Reference definition for the column-layout claim -/

/-- The column layout asserted by the spec: four whitespace-separated
columns, in order (true label, predicted score, receptor path, ligand
path).  To be compared with `parseLine`, which models the source. -/
def parseLineClaimed (line : String) : Except String Row :=
  match (splitOnChar ' ' line.data).map (fun cs => (⟨cs⟩ : String)) with
  | [a, b, c, d] =>
    match parseRat? a, parseRat? b with
    | some yt, some yp => .ok ⟨yt, yp, c, d⟩
    | _, _ => .error ("could not parse numeric columns: " ++ line)
  | _ => .error ("wrong number of columns: " ++ line)

/-! ### Reference definitions for the `extract_energies` claim -/

/-- The line immediately following each tag line of an SDF file (a trailing
tag line has no follower). -/
def tagFollowers : List String → List String
  | a :: b :: rest => (if isTag a then [b] else []) ++ tagFollowers (b :: rest)
  | _ => []

/-- Well-formedness of an SDF file for `extract_energies`: scanning with
the pending-record state `b`, every tag line is immediately followed by a
non-tag line (so no two consecutive tags and no trailing tag). -/
def goodSdfAux : Bool → List String → Bool
  | b, [] => !b
  | b, line :: rest => if isTag line then !b && goodSdfAux true rest else goodSdfAux false rest

/-- `float(line.strip())` applied to every line of a list, failing if any
line fails. -/
def parseAll : List String → Option (List ℚ)
  | [] => some []
  | v :: vs =>
    match parseRat? (stripStr v) with
    | none => none
    | some q => (parseAll vs).map (fun qs => q :: qs)

/-! ### Helper lemmas -/

/-- A pose among the top `n` below the threshold is also among the top
`n + 1`. -/
lemma any_take_succ_of_any_take (lst : List Triple) (n : ℕ) (th : ℚ)
    (h : (lst.take n).any (fun t => t.2.2 < th) = true) :
    (lst.take (n + 1)).any (fun t => t.2.2 < th) = true := by
  rw [List.any_eq_true] at h ⊢
  obtain ⟨t, ht, hlt⟩ := h
  refine ⟨t, ?_, hlt⟩
  have : lst.take n ⊆ lst.take (n + 1) := by
    have := List.take_take n (n + 1) lst
    rw [Nat.min_eq_left (Nat.le_succ n)] at this
    rw [← this]
    exact List.take_subset _ _
  exact this ht

end PoseSelection

namespace PoseSelection

/-! ### Claims about `Ranking.get_top_n` (spec-modelled) -/

/-- **C3.** `Ranking.get_top_n` returns the fraction of receptors for which
at least one of the first `n` poses of its (score-sorted) list has RMSD
strictly below the threshold. -/
theorem get_top_n_eq_fraction (r : Ranking) (n : ℕ) (th : ℚ) :
    r.get_top_n n th =
      ((r.lists.filter (fun lst => decide (∃ t ∈ lst.take n, t.2.2 < th))).length : ℚ) /
        (r.lists.length : ℚ) := by
  unfold Ranking.get_top_n
  congr 2
  rw [List.countP_eq_length_filter]
  congr 1
  apply List.filter_congr
  intro lst _
  rw [Bool.eq_iff_iff]
  simp [List.any_eq_true]

/-- **C4.** For a fixed result set and threshold, top-N accuracy is
monotonically non-decreasing in N. -/
theorem get_top_n_mono (r : Ranking) (n : ℕ) (th : ℚ) :
    r.get_top_n n th ≤ r.get_top_n (n + 1) th := by
  unfold Ranking.get_top_n
  rw [div_eq_mul_inv, div_eq_mul_inv]
  apply mul_le_mul_of_nonneg_right
  · have hc : r.lists.countP (fun lst => (lst.take n).any (fun t => t.2.2 < th)) ≤
        r.lists.countP (fun lst => (lst.take (n + 1)).any (fun t => t.2.2 < th)) :=
      List.countP_mono_left (fun lst _ h => any_take_succ_of_any_take lst n th h)
    exact_mod_cast hc
  · positivity

/-! ### Claim C5: missing path -/

/-- **C5.** When the results path is neither an existing file nor an
existing directory, `parse_results` raises `FileNotFoundError` and returns
no `Ranking`. -/
theorem parse_results_missing_path (p : String) (table : RmsdTable) :
    parse_results (.missing p) table =
      .error ("FileNotFoundError: " ++ p ++ " does not exist.") ∧
    ∀ r : Ranking, parse_results (.missing p) table ≠ .ok r := by
  exact ⟨rfl, fun r h => nomatch h⟩

/-! ### Claim C7: the command-line output -/

/-- **C7.** When `parse_results` succeeds, the `__main__` block prints one
accuracy line for every N from 1 to 10 inclusive, in increasing order. -/
theorem mainOutput_lines (input : PathInput) (table : RmsdTable) (th : ℚ)
    (out : List (ℕ × ℚ)) (h : mainOutput input table th = .ok out) :
    out.map Prod.fst = [1, 2, 3, 4, 5, 6, 7, 8, 9, 10] ∧
    out.length = 10 ∧ List.Chain' (· < ·) (out.map Prod.fst) := by
  unfold mainOutput at h
  cases hp : parse_results input table with
  | error e => rw [hp] at h; exact absurd h (by simp)
  | ok r =>
    rw [hp] at h
    have hout : out = (List.range' 1 10).map (fun i => (i, r.get_top_n i th)) := by
      simpa using h.symm
    subst hout
    refine ⟨?_, ?_, ?_⟩
    · simp [List.range']
    · simp
    · simp [List.range']

/-- Witness for C7 at a concrete input (the empty SDF directory). -/
theorem mainOutput_lines_witness :
    ([(1, (0 : ℚ)), (2, 0), (3, 0), (4, 0), (5, 0), (6, 0), (7, 0), (8, 0), (9, 0),
        (10, 0)].map Prod.fst = [1, 2, 3, 4, 5, 6, 7, 8, 9, 10] ∧
      ([(1, (0 : ℚ)), (2, 0), (3, 0), (4, 0), (5, 0), (6, 0), (7, 0), (8, 0), (9, 0),
        (10, 0)] : List (ℕ × ℚ)).length = 10 ∧
      List.Chain' (· < ·)
        (([(1, (0 : ℚ)), (2, 0), (3, 0), (4, 0), (5, 0), (6, 0), (7, 0), (8, 0), (9, 0),
          (10, 0)] : List (ℕ × ℚ)).map Prod.fst)) :=
  mainOutput_lines (.dir []) [] 0 _
    (by simp [mainOutput, parse_results, sdfFoldAux, Ranking.get_top_n, List.range'])

/-! ### Claim C8: `extract_energies` -/

lemma tagFollowers_cons_of_neg (a : String) (tail : List String) (ha : isTag a = false) :
    tagFollowers (a :: tail) = tagFollowers tail := by
  cases tail with
  | nil => rfl
  | cons b rest => simp [tagFollowers, ha]

lemma parseAll_length : ∀ (vs : List String) (vals : List ℚ),
    parseAll vs = some vals → vals.length = vs.length := by
  intro vs
  induction vs with
  | nil => intro vals h; simp [parseAll] at h; simp [← h]
  | cons v vs ih =>
    intro vals h
    simp only [parseAll] at h
    cases hv : parseRat? (stripStr v) with
    | none => rw [hv] at h; exact absurd h (by simp)
    | some q =>
      rw [hv] at h
      cases hrest : parseAll vs with
      | none => rw [hrest] at h; exact absurd h (by simp)
      | some qs =>
        rw [hrest] at h
        simp at h
        rw [← h]
        simp [ih qs hrest]

lemma extractAux_eq_of_good : ∀ (lines : List String),
    goodSdfAux false lines = true → ∀ vals : List ℚ,
    parseAll (tagFollowers lines) = some vals → extractAux false lines = .ok vals := by
  intro lines
  induction lines with
  | nil =>
    intro _ vals hv
    simp [tagFollowers, parseAll] at hv
    simp [extractAux, ← hv]
  | cons a tail ih =>
    intro hgood vals hv
    by_cases ha : isTag a
    · have hg2 : goodSdfAux true tail = true := by simpa [goodSdfAux, ha] using hgood
      cases tail with
      | nil => simp [goodSdfAux] at hg2
      | cons b rest =>
        by_cases hb : isTag b
        · simp [goodSdfAux, hb] at hg2
        · rw [show tagFollowers (a :: b :: rest) = b :: tagFollowers (b :: rest) by
            simp [tagFollowers, ha]] at hv
          simp only [parseAll] at hv
          cases hpb : parseRat? (stripStr b) with
          | none => rw [hpb] at hv; exact absurd hv (by simp)
          | some q =>
            rw [hpb] at hv
            cases hrest : parseAll (tagFollowers (b :: rest)) with
            | none => rw [hrest] at hv; exact absurd hv (by simp)
            | some qs =>
              rw [hrest] at hv
              simp at hv
              have hgf : goodSdfAux false (b :: rest) = true := by
                simpa [goodSdfAux, hb] using hg2
              have hfb : extractAux false (b :: rest) = .ok qs := ih hgf qs hrest
              have hfr : extractAux false rest = .ok qs := by
                simpa [extractAux, hb] using hfb
              rw [← hv]
              simp [extractAux, ha, hb, hpb, hfr]
    · have hg2 : goodSdfAux false tail = true := by simpa [goodSdfAux, ha] using hgood
      rw [tagFollowers_cons_of_neg a tail (by simpa using ha)] at hv
      have := ih hg2 vals hv
      simpa [extractAux, ha] using this

lemma tagFollowers_length_of_good : ∀ lines : List String,
    goodSdfAux false lines = true →
    (tagFollowers lines).length = lines.countP (fun l => isTag l) := by
  intro lines
  induction lines with
  | nil => intro _; simp [tagFollowers]
  | cons a tail ih =>
    intro hgood
    by_cases ha : isTag a
    · have hg2 : goodSdfAux true tail = true := by simpa [goodSdfAux, ha] using hgood
      cases tail with
      | nil => simp [goodSdfAux] at hg2
      | cons b rest =>
        by_cases hb : isTag b
        · simp [goodSdfAux, hb] at hg2
        · have hgf : goodSdfAux false (b :: rest) = true := by
            simpa [goodSdfAux, hb] using hg2
          have := ih hgf
          simp [tagFollowers, ha, List.countP_cons, this]
    · have ha2 : isTag a = false := by simpa using ha
      have hg2 : goodSdfAux false tail = true := by simpa [goodSdfAux, ha] using hgood
      rw [tagFollowers_cons_of_neg a tail ha2]
      simp [List.countP_cons, ha2, ih hg2]

/-- **C8 (counterexample).**  On a file consisting of a single
`> <minimizedAffinity>` tag line, `extract_energies` returns an *empty*
mapping although the file has one tag line, so the keys are not
`0..k-1` with `k` the number of tag lines. -/
theorem extract_energies_trailing_tag :
    extractEnergies ["> <minimizedAffinity>"] = .ok [] ∧
    ["> <minimizedAffinity>"].countP (fun l => isTag l) = 1 := by
  constructor
  · rfl
  · decide

/-- **C8 (amended).**  For an SDF file in which every
`> <minimizedAffinity>` tag line is immediately followed by a non-tag line,
and every such following line parses as a float, `extract_energies` returns
the mapping with keys exactly `0..k-1` (`k` the number of tag lines) whose
value at `i` is the float parsed from the line following the `(i+1)`-th tag
line. -/
theorem extract_energies_spec (lines : List String) (vals : List ℚ)
    (hgood : goodSdfAux false lines = true)
    (hparse : parseAll (tagFollowers lines) = some vals) :
    extractEnergies lines = .ok vals ∧
    vals.length = lines.countP (fun l => isTag l) := by
  refine ⟨extractAux_eq_of_good lines hgood vals hparse, ?_⟩
  rw [parseAll_length _ _ hparse]
  exact tagFollowers_length_of_good lines hgood

/-- Witness for the amended C8 on a concrete two-pose SDF file. -/
theorem extract_energies_spec_witness :
    extractEnergies
        ["> <minimizedAffinity>", "1.0", "anything", "> <minimizedAffinity>", "2.5"] =
      .ok [1, 5 / 2] ∧
    ([1, (5 : ℚ) / 2] : List ℚ).length =
      ["> <minimizedAffinity>", "1.0", "anything", "> <minimizedAffinity>",
        "2.5"].countP (fun l => isTag l) :=
  extract_energies_spec _ _ (by decide)
    (by simp [parseAll, tagFollowers, isTag, strStartsWith, parseRat?, parseNat?,
      splitOnChar, stripStr, isWS]; norm_num)

/-! ### Shape of the SDF-branch results -/

lemma processSdf_ok_shape (table : RmsdTable) (acc : List (List Triple))
    (sdf : String × List String) (res : List (List Triple))
    (h : processSdf table acc sdf = .ok res) :
    res = acc ∨ ∃ combined : List Triple,
      res = acc ++ [(combined.insertionSort (fun a b => a.2.1 ≤ b.2.1)).map relabel] := by
  simp only [processSdf] at h
  split at h
  · left
    injection h with h
    exact h.symm
  · split at h
    · exact absurd h (by simp)
    · split at h
      · exact absurd h (by simp)
      · split at h
        · exact absurd h (by simp)
        · injection h with h
          right
          exact ⟨_, h.symm⟩

lemma sdfFoldAux_mem_shape (table : RmsdTable) :
    ∀ (sdfs : List (String × List String)) (acc res : List (List Triple)),
    sdfFoldAux table acc sdfs = .ok res → ∀ lst ∈ res,
      lst ∈ acc ∨ ∃ combined : List Triple,
        lst = (combined.insertionSort (fun a b => a.2.1 ≤ b.2.1)).map relabel := by
  intro sdfs
  induction sdfs with
  | nil =>
    intro acc res h lst hm
    left
    injection h with h
    rw [h]
    exact hm
  | cons sdf rest ih =>
    intro acc res h lst hm
    simp only [sdfFoldAux] at h
    cases hp : processSdf table acc sdf with
    | error e => rw [hp] at h; exact absurd h (by simp)
    | ok acc2 =>
      rw [hp] at h
      cases ih acc2 res h lst hm with
      | inr hr => exact Or.inr hr
      | inl hl =>
        cases processSdf_ok_shape table acc sdf acc2 hp with
        | inl he => left; rw [he] at hl; exact hl
        | inr hr =>
          obtain ⟨combined, hc⟩ := hr
          rw [hc] at hl
          rcases List.mem_append.mp hl with h1 | h2
          · exact Or.inl h1
          · right
            exact ⟨combined, by simpa using h2⟩

/-! ### Claim C9: ground-truth labels in the SDF branch -/

/-- **C9.**  In the SDF-directory branch the recorded ground-truth label of
every pose is `1` exactly when its RMSD is strictly below `2`, else `0`;
the threshold `2` is hard-coded (`parse_results` takes no user threshold at
all, as its signature shows). -/
theorem sdf_branch_labels (sdfs : List (String × List String)) (table : RmsdTable)
    (r : Ranking) (h : parse_results (.dir sdfs) table = .ok r) :
    ∀ lst ∈ r.lists, ∀ t ∈ lst, t.1 = if t.2.2 < 2 then (1 : ℚ) else 0 := by
  intro lst hlst t ht
  simp only [parse_results] at h
  cases hf : sdfFoldAux table [] sdfs with
  | error e => rw [hf] at h; exact absurd h (by simp)
  | ok lists =>
    rw [hf] at h
    injection h with h
    rw [← h] at hlst
    cases sdfFoldAux_mem_shape table sdfs [] lists hf lst hlst with
    | inl habs => exact absurd habs (List.not_mem_nil lst)
    | inr hr =>
      obtain ⟨combined, hc⟩ := hr
      rw [hc] at ht
      obtain ⟨s, _, hs⟩ := List.mem_map.mp ht
      rw [← hs]
      simp [relabel]

/-- Witness for C9: a pose of the two-pose SDF directory
`[("B", [tag, "15.0", tag, "5.0"])]` with RMSD `1`, labelled `1`. -/
theorem sdf_branch_labels_witness :
    ((1 : ℚ), (15 : ℚ), (1 : ℚ)).1 =
      if ((1 : ℚ), (15 : ℚ), (1 : ℚ)).2.2 < 2 then (1 : ℚ) else 0 :=
  sdf_branch_labels
    [("B", ["> <minimizedAffinity>", "15.0", "> <minimizedAffinity>", "5.0"])]
    [("B", [(0, 1), (1, 3)])] (Ranking.mk [[((0 : ℚ), (5 : ℚ), (3 : ℚ)), (1, 15, 1)]])
    (by
      simp [parse_results, sdfFoldAux, processSdf, extractEnergies, extractAux, isTag,
        strStartsWith, parseRat?, parseNat?, splitOnChar, stripStr, isWS, buildCombinedAux,
        relabel, List.lookup, List.insertionSort, List.orderedInsert,
        show ¬((15 : ℚ) ≤ 5) by norm_num, show ¬((3 : ℚ) < 2) by norm_num,
        show ((1 : ℚ) < 2) by norm_num])
    [((0 : ℚ), (5 : ℚ), (3 : ℚ)), (1, 15, 1)] (List.mem_cons_self _ _)
    ((1 : ℚ), (15 : ℚ), (1 : ℚ)) (List.mem_cons_of_mem _ (List.mem_cons_self _ _))

/-! ### Claim C10: `minimised` rows are skipped in the text branch -/

lemma textGroupsAux_filter_minimised (table : RmsdTable) :
    ∀ (rows : List Row) (acc groups : List (String × List Triple)),
    textGroupsAux table acc rows = .ok groups →
    textGroupsAux table acc
      (rows.filter (fun row => !(strStartsWith "minimised" (stem row.lig)))) = .ok groups := by
  intro rows
  induction rows with
  | nil => intro acc groups h; simpa using h
  | cons row rest ih =>
    intro acc groups h
    simp only [textGroupsAux] at h
    cases hp : processRow table acc row with
    | error e => rw [hp] at h; exact absurd h (by simp)
    | ok acc2 =>
      rw [hp] at h
      by_cases hm : strStartsWith "minimised" (stem row.lig) = true
      · have hacc : acc2 = acc := by
          simp only [processRow] at hp
          cases hlk : List.lookup (stem row.recp) table with
          | none => rw [hlk] at hp; exact absurd hp (by simp)
          | some record =>
            rw [hlk] at hp
            simp [hm] at hp
            exact hp.symm
        rw [List.filter_cons_of_neg (by simp [hm])]
        exact ih acc groups (hacc ▸ h)
      · rw [List.filter_cons_of_pos (by simp [hm])]
        simp only [textGroupsAux]
        rw [hp]
        exact ih acc2 groups h

/-- **C10.**  In the text-file branch, rows whose ligand basename (before
the first `'.'`) starts with `minimised` are silently skipped: removing
them from the input leaves the per-receptor groups (and hence every
statistic computed from them) unchanged. -/
theorem minimised_rows_excluded (table : RmsdTable) (rows : List Row)
    (groups : List (String × List Triple))
    (h : textBranchGroups table rows = .ok groups) :
    textBranchGroups table
      (rows.filter (fun row => !(strStartsWith "minimised" (stem row.lig)))) = .ok groups :=
  textGroupsAux_filter_minimised table rows [] groups h

/-- Witness for C10: a `minimised` row between ordinary rows contributes
nothing. -/
theorem minimised_rows_excluded_witness :
    textBranchGroups [("recA", [(0, 1)])]
      ([⟨0, 1, "recA.pdb", "minimised_0.sdf"⟩,
        ⟨1, 2, "recA.pdb", "lig_0.sdf"⟩].filter
        (fun row => !(strStartsWith "minimised" (stem row.lig)))) =
      .ok [("recA.pdb", [(1, 2, 1)])] :=
  minimised_rows_excluded [("recA", [(0, 1)])]
    [⟨0, 1, "recA.pdb", "minimised_0.sdf"⟩, ⟨1, 2, "recA.pdb", "lig_0.sdf"⟩]
    [("recA.pdb", [(1, 2, 1)])]
    (by simp [textBranchGroups, textGroupsAux, processRow, stem, pathName, splitOnChar,
      strStartsWith, lastUnderscoreToken, parseNat?, addToGroup, List.lookup])

/-! ### Claim C1: receptors absent from the RMSD table -/

lemma textGroupsAux_error_of_missing (table : RmsdTable) :
    ∀ (rows : List Row) (acc : List (String × List Triple)),
    (∃ row ∈ rows, List.lookup (stem row.recp) table = none) →
    ∃ e, textGroupsAux table acc rows = .error e := by
  intro rows
  induction rows with
  | nil =>
    intro acc h
    obtain ⟨row, hmem, _⟩ := h
    exact absurd hmem (List.not_mem_nil row)
  | cons row rest ih =>
    intro acc h
    simp only [textGroupsAux]
    cases hp : processRow table acc row with
    | error e => exact ⟨e, rfl⟩
    | ok acc2 =>
      obtain ⟨row2, hmem, hmiss⟩ := h
      rcases List.mem_cons.mp hmem with heq | hmem2
      · subst heq
        exact absurd hp (by simp [processRow, hmiss])
      · obtain ⟨e, he⟩ := ih acc2 ⟨row2, hmem2, hmiss⟩
        exact ⟨e, he⟩

lemma sdfFoldAux_skip_missing (table : RmsdTable) (bad : String × List String)
    (hbad : List.lookup bad.1 table = none) :
    ∀ (sdfs1 : List (String × List String)) (acc : List (List Triple))
      (sdfs2 : List (String × List String)),
    sdfFoldAux table acc (sdfs1 ++ bad :: sdfs2) = sdfFoldAux table acc (sdfs1 ++ sdfs2) := by
  intro sdfs1
  induction sdfs1 with
  | nil =>
    intro acc sdfs2
    simp only [List.nil_append, sdfFoldAux]
    have hskip : processSdf table acc bad = .ok acc := by simp [processSdf, hbad]
    rw [hskip]
  | cons sdf rest ih =>
    intro acc sdfs2
    simp only [List.cons_append, sdfFoldAux]
    cases hp : processSdf table acc sdf with
    | error e => rfl
    | ok acc2 => exact ih acc2 sdfs2

/-- **C1 (counterexample).**  In the text-file branch a receptor absent
from the RMSD table is *not* silently skipped: the lookup
`rmsd_info[pdbid]` raises a `KeyError` and no `Ranking` is returned (the
claim would require `Ranking([])` over the remaining receptors). -/
theorem missing_receptor_counterexample :
    parse_results (.file ["1 | 2 recX.pdb ligA_0.sdf"]) [("other", [(0, 1)])] =
      .error ("KeyError: " ++ "recX") ∧
    parse_results (.file ["1 | 2 recX.pdb ligA_0.sdf"]) [("other", [(0, 1)])] ≠
      .ok (Ranking.mk []) := by
  have h1 : parse_results (.file ["1 | 2 recX.pdb ligA_0.sdf"]) [("other", [(0, 1)])] =
      .error ("KeyError: " ++ "recX") := by
    simp [parse_results, parseLines, parseLine, splitOnChar, parseRat?, parseNat?,
      textBranchGroups, textGroupsAux, processRow, stem, pathName, strStartsWith,
      lastUnderscoreToken, List.lookup, stripStr, isWS]
  exact ⟨h1, by rw [h1]; exact fun hc => nomatch hc⟩

/-- **C1 (amended).**  A receptor absent from the RMSD table is silently
skipped, and excluded from all statistics, in the SDF-directory branch
only; in the text-file branch a row whose receptor pdbid is missing from
the table makes `parse_results` raise a `KeyError`, so no `Ranking` is
returned at all. -/
theorem missing_receptor_behaviour
    (lines : List String) (rows : List Row) (row : Row) (table : RmsdTable)
    (hparse : parseLines lines = .ok rows) (hrow : row ∈ rows)
    (hmiss : List.lookup (stem row.recp) table = none)
    (sdfs1 sdfs2 : List (String × List String)) (bad : String × List String)
    (hbad : List.lookup bad.1 table = none) :
    (∃ e, parse_results (.file lines) table = .error e) ∧
    parse_results (.dir (sdfs1 ++ bad :: sdfs2)) table =
      parse_results (.dir (sdfs1 ++ sdfs2)) table := by
  constructor
  · obtain ⟨e, he⟩ := textGroupsAux_error_of_missing table rows [] ⟨row, hrow, hmiss⟩
    have he2 : textBranchGroups table rows = .error e := he
    exact ⟨e, by simp [parse_results, hparse, he2]⟩
  · simp only [parse_results]
    rw [sdfFoldAux_skip_missing table bad hbad sdfs1 [] sdfs2]

/-- Witness for the amended C1 at concrete inputs. -/
theorem missing_receptor_behaviour_witness :
    (∃ e, parse_results (.file ["1 | 2 recX.pdb ligA_0.sdf"]) [("other", [(0, 1)])] =
      .error e) ∧
    parse_results (.dir ([] ++ ("X", []) :: [])) [("other", [(0, 1)])] =
      parse_results (.dir ([] ++ [])) [("other", [(0, 1)])] :=
  missing_receptor_behaviour ["1 | 2 recX.pdb ligA_0.sdf"]
    [⟨1, 2, "recX.pdb", "ligA_0.sdf"⟩] ⟨1, 2, "recX.pdb", "ligA_0.sdf"⟩
    [("other", [(0, 1)])]
    (by simp [parseLines, parseLine, splitOnChar, parseRat?, parseNat?])
    (by simp)
    (by simp [stem, pathName, splitOnChar, List.lookup])
    [] [] ("X", [])
    (by simp [List.lookup])

/-! ### Claim C2: sort order of the per-receptor lists -/

instance : IsTotal Triple (fun a b => b.2.1 ≤ a.2.1) :=
  ⟨fun a b => le_total b.2.1 a.2.1⟩

instance : IsTrans Triple (fun a b => b.2.1 ≤ a.2.1) :=
  ⟨fun _ _ _ h1 h2 => le_trans h2 h1⟩

instance : IsTotal Triple (fun a b => a.2.1 ≤ b.2.1) :=
  ⟨fun a b => le_total a.2.1 b.2.1⟩

instance : IsTrans Triple (fun a b => a.2.1 ≤ b.2.1) :=
  ⟨fun _ _ _ h1 h2 => le_trans h1 h2⟩

/-- **C2 (counterexample).**  In the SDF-directory branch the poses are
sorted by energy *ascending* (`key=lambda x: x[1]` with no `reverse`), so
the produced list `[(0, 1, 5), (0, 2, 6)]` is not sorted by score
descending. -/
theorem sdf_sort_counterexample :
    parse_results (.dir [("A", ["> <minimizedAffinity>", "1.0", "> <minimizedAffinity>", "2.0"])])
      [("A", [(0, 5), (1, 6)])] = .ok (Ranking.mk [[(0, 1, 5), (0, 2, 6)]]) ∧
    ¬ List.Sorted (fun a b : Triple => b.2.1 ≤ a.2.1) [((0 : ℚ), (1 : ℚ), (5 : ℚ)), (0, 2, 6)] := by
  constructor
  · simp [parse_results, sdfFoldAux, processSdf, extractEnergies, extractAux, isTag,
      strStartsWith, parseRat?, parseNat?, splitOnChar, stripStr, isWS, buildCombinedAux,
      relabel, List.lookup, List.insertionSort, List.orderedInsert,
      show ((1 : ℚ) ≤ 2) by norm_num, show ¬((5 : ℚ) < 2) by norm_num,
      show ¬((6 : ℚ) < 2) by norm_num]
  · simp only [List.sorted_cons]
    intro h
    have := h.1 (0, 2, 6) (by simp)
    norm_num at this

/-- **C2 (amended).**  Per-receptor pose lists are sorted by predicted
score *descending* in the text-file branch, and by `minimizedAffinity`
energy *ascending* (best, lowest-energy pose first) in the SDF-directory
branch. -/
theorem groups_sorted
    (lines : List String) (table : RmsdTable) (r1 : Ranking)
    (h1 : parse_results (.file lines) table = .ok r1)
    (sdfs : List (String × List String)) (r2 : Ranking)
    (h2 : parse_results (.dir sdfs) table = .ok r2) :
    (∀ lst ∈ r1.lists, List.Sorted (fun a b : Triple => b.2.1 ≤ a.2.1) lst) ∧
    (∀ lst ∈ r2.lists, List.Sorted (fun a b : Triple => a.2.1 ≤ b.2.1) lst) := by
  constructor
  · intro lst hlst
    simp only [parse_results] at h1
    cases hp : parseLines lines with
    | error e => rw [hp] at h1; exact absurd h1 (by simp)
    | ok rows =>
      simp only [hp] at h1
      cases hg : textBranchGroups table rows with
      | error e => simp only [hg] at h1; exact absurd h1 (by simp)
      | ok groups =>
        simp only [hg] at h1
        injection h1 with h1
        rw [← h1] at hlst
        obtain ⟨g, _, hgm⟩ := List.mem_map.mp hlst
        rw [← hgm]
        simpa [sortGroupDesc] using
          List.sorted_insertionSort (fun a b : Triple => b.2.1 ≤ a.2.1) g.2
  · intro lst hlst
    simp only [parse_results] at h2
    cases hf : sdfFoldAux table [] sdfs with
    | error e => rw [hf] at h2; exact absurd h2 (by simp)
    | ok lists =>
      rw [hf] at h2
      injection h2 with h2
      rw [← h2] at hlst
      cases sdfFoldAux_mem_shape table sdfs [] lists hf lst hlst with
      | inl habs => exact absurd habs (List.not_mem_nil lst)
      | inr hr =>
        obtain ⟨combined, hc⟩ := hr
        rw [hc]
        have hs : List.Sorted (fun a b : Triple => a.2.1 ≤ b.2.1)
            (combined.insertionSort (fun a b => a.2.1 ≤ b.2.1)) :=
          List.sorted_insertionSort (fun a b : Triple => a.2.1 ≤ b.2.1) combined
        exact List.Pairwise.map relabel (fun a b h => by simpa [relabel] using h) hs

/-- Witness for the amended C2 at concrete inputs exercising both
branches. -/
theorem groups_sorted_witness :
    List.Sorted (fun a b : Triple => b.2.1 ≤ a.2.1)
      [((1 : ℚ), (3 : ℚ), (1 : ℚ)), (0, 2, 4)] ∧
    List.Sorted (fun a b : Triple => a.2.1 ≤ b.2.1)
      [((0 : ℚ), (1 : ℚ), (5 : ℚ)), (0, 2, 6)] := by
  have h := groups_sorted ["1 | 3 recA.pdb lig_0.sdf", "0 | 2 recA.pdb lig_1.sdf"]
    [("recA", [(0, 1), (1, 4)]), ("A", [(0, 5), (1, 6)])]
    (Ranking.mk [[((1 : ℚ), (3 : ℚ), (1 : ℚ)), (0, 2, 4)]])
    (by simp [parse_results, parseLines, parseLine, splitOnChar, parseRat?, parseNat?,
      textBranchGroups, textGroupsAux, processRow, stem, pathName, strStartsWith,
      lastUnderscoreToken, addToGroup, List.lookup, stripStr, isWS, sortGroupDesc,
      List.insertionSort, List.orderedInsert, show ((2 : ℚ) ≤ 3) by norm_num])
    [("A", ["> <minimizedAffinity>", "1.0", "> <minimizedAffinity>", "2.0"])]
    (Ranking.mk [[((0 : ℚ), (1 : ℚ), (5 : ℚ)), (0, 2, 6)]])
    (by simp [parse_results, sdfFoldAux, processSdf, extractEnergies, extractAux, isTag,
      strStartsWith, parseRat?, parseNat?, splitOnChar, stripStr, isWS, buildCombinedAux,
      relabel, List.lookup, List.insertionSort, List.orderedInsert,
      show ((1 : ℚ) ≤ 2) by norm_num, show ¬((5 : ℚ) < 2) by norm_num,
      show ¬((6 : ℚ) < 2) by norm_num])
  exact ⟨h.1 _ (List.mem_cons_self _ _), h.2 _ (List.mem_cons_self _ _)⟩

/-! ### Claim C6: the text-file table layout and row contribution -/

lemma lookup_addToGroup_self (groups : List (String × List Triple)) (key : String)
    (v : Triple) :
    ∃ lst, List.lookup key (addToGroup groups key v) = some lst ∧ v ∈ lst := by
  induction groups with
  | nil => exact ⟨[v], by simp [addToGroup, List.lookup], by simp⟩
  | cons g rest ih =>
    obtain ⟨k, vs⟩ := g
    by_cases hk : k = key
    · subst hk
      exact ⟨vs ++ [v], by simp [addToGroup, List.lookup], by simp⟩
    · obtain ⟨lst, hl, hv⟩ := ih
      refine ⟨lst, ?_, hv⟩
      have hbeq : (key == k) = false := by
        simp [BEq.beq]
        exact fun h => hk h.symm
      simp [addToGroup, hk, List.lookup, hbeq]
      exact hl

lemma lookup_addToGroup_mono (groups : List (String × List Triple)) (key2 : String)
    (v2 : Triple) (key : String) (lst : List Triple) (t : Triple)
    (h : List.lookup key groups = some lst) (ht : t ∈ lst) :
    ∃ lst2, List.lookup key (addToGroup groups key2 v2) = some lst2 ∧ t ∈ lst2 := by
  induction groups with
  | nil => exact absurd h (by simp [List.lookup])
  | cons g rest ih =>
    obtain ⟨k, vs⟩ := g
    by_cases hbeq : (key == k) = true
    · have hlst : vs = lst := by
        simp [List.lookup, hbeq] at h
        exact h
      by_cases hk2 : k = key2
      · subst hk2
        refine ⟨vs ++ [v2], ?_, ?_⟩
        · simp [addToGroup, List.lookup, hbeq]
        · rw [hlst]; exact List.mem_append_left _ ht
      · refine ⟨lst, ?_, ht⟩
        simp [addToGroup, hk2, List.lookup, hbeq]
        exact hlst
    · have hrest : List.lookup key rest = some lst := by
        simpa [List.lookup, hbeq] using h
      by_cases hk2 : k = key2
      · subst hk2
        refine ⟨lst, ?_, ht⟩
        simp [addToGroup, List.lookup, hbeq]
        exact hrest
      · obtain ⟨lst2, hl2, ht2⟩ := ih hrest
        refine ⟨lst2, ?_, ht2⟩
        simp [addToGroup, hk2, List.lookup, hbeq]
        exact hl2

lemma processRow_ok_shape (table : RmsdTable) (acc : List (String × List Triple))
    (row : Row) (acc2 : List (String × List Triple))
    (hp : processRow table acc row = .ok acc2) :
    acc2 = acc ∨ ∃ rmsd, acc2 = addToGroup acc row.recp (row.y_true, row.y_pred, rmsd) := by
  simp only [processRow] at hp
  split at hp
  · exact absurd hp (by simp)
  · split at hp
    · left; injection hp with hp; exact hp.symm
    · split at hp
      · exact absurd hp (by simp)
      · split at hp
        · exact absurd hp (by simp)
        · right; injection hp with hp; exact ⟨_, hp.symm⟩

lemma processRow_ok_of_not_minimised (table : RmsdTable)
    (acc : List (String × List Triple)) (row : Row) (acc2 : List (String × List Triple))
    (hp : processRow table acc row = .ok acc2)
    (hmin : strStartsWith "minimised" (stem row.lig) = false) :
    ∃ rmsd, acc2 = addToGroup acc row.recp (row.y_true, row.y_pred, rmsd) := by
  simp only [processRow] at hp
  split at hp
  · exact absurd hp (by simp)
  · split at hp
    · next hcond => rw [hmin] at hcond; exact absurd hcond (by simp)
    · split at hp
      · exact absurd hp (by simp)
      · split at hp
        · exact absurd hp (by simp)
        · exact ⟨_, by injection hp with hp; exact hp.symm⟩

lemma textGroupsAux_mem_mono (table : RmsdTable) :
    ∀ (rest : List Row) (acc groups : List (String × List Triple))
      (key : String) (lst : List Triple) (t : Triple),
    textGroupsAux table acc rest = .ok groups →
    List.lookup key acc = some lst → t ∈ lst →
    ∃ lst2, List.lookup key groups = some lst2 ∧ t ∈ lst2 := by
  intro rest
  induction rest with
  | nil =>
    intro acc groups key lst t h hl ht
    injection h with h
    exact ⟨lst, h ▸ hl, ht⟩
  | cons row rest2 ih =>
    intro acc groups key lst t h hl ht
    simp only [textGroupsAux] at h
    cases hp : processRow table acc row with
    | error e => rw [hp] at h; exact absurd h (by simp)
    | ok acc2 =>
      rw [hp] at h
      cases processRow_ok_shape table acc row acc2 hp with
      | inl he => exact ih acc2 groups key lst t h (he ▸ hl) ht
      | inr hr =>
        obtain ⟨rmsd, hadd⟩ := hr
        obtain ⟨lst2, hl2, ht2⟩ :=
          lookup_addToGroup_mono acc row.recp (row.y_true, row.y_pred, rmsd) key lst t hl ht
        exact ih acc2 groups key lst2 t h (hadd ▸ hl2) ht2

lemma textGroupsAux_contribution (table : RmsdTable) :
    ∀ (rows : List Row) (acc groups : List (String × List Triple)) (row : Row),
    textGroupsAux table acc rows = .ok groups → row ∈ rows →
    strStartsWith "minimised" (stem row.lig) = false →
    ∃ rmsd lst, List.lookup row.recp groups = some lst ∧
      (row.y_true, row.y_pred, rmsd) ∈ lst := by
  intro rows
  induction rows with
  | nil => intro acc groups row _ hmem _; exact absurd hmem (List.not_mem_nil row)
  | cons row2 rest ih =>
    intro acc groups row h hmem hmin
    simp only [textGroupsAux] at h
    cases hp : processRow table acc row2 with
    | error e => rw [hp] at h; exact absurd h (by simp)
    | ok acc2 =>
      rw [hp] at h
      rcases List.mem_cons.mp hmem with heq | hmem2
      · subst heq
        obtain ⟨rmsd, hadd⟩ := processRow_ok_of_not_minimised table acc row acc2 hp hmin
        obtain ⟨lst, hl, hv⟩ :=
          lookup_addToGroup_self acc row.recp (row.y_true, row.y_pred, rmsd)
        obtain ⟨lst2, hl2, ht2⟩ :=
          textGroupsAux_mem_mono table rest acc2 groups row.recp lst
            (row.y_true, row.y_pred, rmsd) h (hadd ▸ hl) hv
        exact ⟨rmsd, lst2, hl2, ht2⟩
      · exact ih acc2 groups row h hmem2 hmin

/-- **C6 (counterexample).**  On the five-field line
`"9 8 7 recA.pdb lig_0.sdf"` the source reads the *third* field (`7`) as
the predicted score and the fourth as the receptor — there is a literal
`'|'` separator column between true label and predicted score — while the
four-column reading asserted by the claim parses the same line
differently; and a `minimised` row contributes nothing to any group,
against "every row contributes". -/
theorem text_file_columns_counterexample :
    parseLine "9 8 7 recA.pdb lig_0.sdf" = .ok ⟨9, 7, "recA.pdb", "lig_0.sdf"⟩ ∧
    parseLineClaimed "9 8 7 recA.pdb lig_0.sdf" ≠ parseLine "9 8 7 recA.pdb lig_0.sdf" ∧
    textBranchGroups [("recA", [(0, 1)])] [⟨1, 1, "recA.pdb", "minimised_0.sdf"⟩] =
      .ok [] := by
  refine ⟨?_, ?_, ?_⟩
  · simp [parseLine, splitOnChar, parseRat?, parseNat?]
  · have h1 : parseLine "9 8 7 recA.pdb lig_0.sdf" =
        .ok ⟨9, 7, "recA.pdb", "lig_0.sdf"⟩ := by
      simp [parseLine, splitOnChar, parseRat?, parseNat?]
    have h2 : parseLineClaimed "9 8 7 recA.pdb lig_0.sdf" =
        .error ("wrong number of columns: " ++ "9 8 7 recA.pdb lig_0.sdf") := by
      simp [parseLineClaimed, splitOnChar]
    rw [h1, h2]
    exact fun hc => nomatch hc
  · simp [textBranchGroups, textGroupsAux, processRow, stem, pathName, splitOnChar,
      strStartsWith, List.lookup]

/-- **C6 (amended).**  The results file is a whitespace-delimited table
whose columns are, in order: true label, a literal `'|'` separator column,
predicted score, receptor path, ligand path; and every parsed row whose
ligand basename does not start with `minimised` contributes its
`(true label, predicted score, RMSD)` triple to the group of its receptor
whenever the text branch succeeds. -/
theorem text_file_columns_and_contribution
    (line : String) (f0 f1 f2 f3 f4 : String) (yt yp : ℚ)
    (hsplit : splitOnChar ' ' line.data = [f0.data, f1.data, f2.data, f3.data, f4.data])
    (h0 : parseRat? f0 = some yt) (h2 : parseRat? f2 = some yp)
    (table : RmsdTable) (rows : List Row) (groups : List (String × List Triple))
    (row : Row) (hg : textBranchGroups table rows = .ok groups) (hrow : row ∈ rows)
    (hmin : strStartsWith "minimised" (stem row.lig) = false) :
    parseLine line = .ok ⟨yt, yp, f3, f4⟩ ∧
    ∃ rmsd lst, List.lookup row.recp groups = some lst ∧
      (row.y_true, row.y_pred, rmsd) ∈ lst := by
  constructor
  · simp only [parseLine, hsplit, List.map]
    rw [h0, h2]
  · exact textGroupsAux_contribution table rows [] groups row hg hrow hmin

/-- Witness for the amended C6 at a concrete line and row. -/
theorem text_file_columns_and_contribution_witness :
    (parseLine "9 8 7 recA.pdb lig_0.sdf" = .ok ⟨9, 7, "recA.pdb", "lig_0.sdf"⟩ ∧
      ∃ rmsd lst,
        List.lookup (Row.recp ⟨9, 7, "recA.pdb", "lig_0.sdf"⟩)
            [("recA.pdb", [((9 : ℚ), (7 : ℚ), (1 : ℚ))])] = some lst ∧
        (Row.y_true ⟨9, 7, "recA.pdb", "lig_0.sdf"⟩,
          Row.y_pred ⟨9, 7, "recA.pdb", "lig_0.sdf"⟩, rmsd) ∈ lst) :=
  text_file_columns_and_contribution "9 8 7 recA.pdb lig_0.sdf"
    "9" "8" "7" "recA.pdb" "lig_0.sdf" 9 7
    (by decide)
    (by simp [parseRat?, parseNat?, splitOnChar])
    (by simp [parseRat?, parseNat?, splitOnChar])
    [("recA", [(0, 1)])] [⟨9, 7, "recA.pdb", "lig_0.sdf"⟩]
    [("recA.pdb", [(9, 7, 1)])] ⟨9, 7, "recA.pdb", "lig_0.sdf"⟩
    (by simp [textBranchGroups, textGroupsAux, processRow, stem, pathName, splitOnChar,
      strStartsWith, lastUnderscoreToken, parseNat?, addToGroup, List.lookup])
    (by simp)
    (by decide)

end PoseSelection
